import Mathlib

/-!
Shallow embedding of the JSON-backed task metadata store
(`LocalTaskStore` in `backend/storage.py`) and verification of the
spec's claims about it.

The store's persisted state is the ordered list of task records held in
`tasks.json`; every operation loads the whole list, transforms it purely,
and writes it back, so each method is embedded as a pure function from
the record list (plus the operation's arguments) to a new record list,
with Python exceptions embedded as `Except`.  All `datetime.utcnow()`
calls made during a single operation are modelled by one `now : String`
argument.
-/

namespace NoteAgent

/-- A loosely-structured input mapping as accepted by
`_normalize_task_record`.  A key that is absent and a key explicitly set
to `None` are both modelled as `none`: on every path the claims exercise
the store reads these keys with `.get`, which conflates the two.
Unrecognized extra keys, which `dict(task)` would carry through
verbatim, are not modelled; no claim concerns them. -/
structure RawTask where
  id : Option String := none
  title : Option String := none
  canonical_text : Option String := none
  status : Option String := none
  priority : Option String := none
  created_at : Option String := none
  updated_at : Option String := none
  note_id : Option String := none
  user_id : Option String := none
  workspace_id : Option String := none
  due_date : Option String := none
  due_time : Option String := none
  completed_at : Option String := none
  confidence : Option String := none
  source_text : Option String := none
deriving DecidableEq, Repr

/-- A fully-populated task record as produced by `_normalize_task_record`
and stored in the `tasks` array of `tasks.json`.  The opaque numeric
`confidence` pass-through is modelled as its literal string; the store
never computes with it. -/
structure Task where
  id : String
  title : String
  status : String
  priority : String
  created_at : String
  updated_at : String
  note_id : Option String
  user_id : Option String
  workspace_id : Option String
  due_date : Option String
  due_time : Option String
  completed_at : Option String
  confidence : Option String
  source_text : Option String
deriving DecidableEq, Repr

/-- Python `a or b` where `a` is an optional string and `b` a string:
`None` and the empty string are falsy, so they fall through to `b`. -/
def pyOrS : Option String → String → String
  | some s, b => if s = "" then b else s
  | none, b => b

/-- Lexicographic strict comparison of character lists by code point:
the order Python's `<` uses on strings.  (Lean's `Char` is a Unicode
code point, exactly Python's character model.) -/
def listLtB : List Char → List Char → Bool
  | [], [] => false
  | [], _ :: _ => true
  | _ :: _, [] => false
  | a :: as, b :: bs =>
    if a < b then true
    else if b < a then false
    else listLtB as bs

/-- Python `s1 < s2` on strings. -/
def pyStrLt (a b : String) : Bool := listLtB a.data b.data

/-- Python `s1 <= s2` on strings (used by the chained range comparison
`start_date <= due <= end_date`). -/
def pyStrLe (a b : String) : Bool := pyStrLt a b || a == b

/-- Models `abs(hash((canonical_text, now)))` from the id-fabrication line
of `_normalize_task_record`.  Python's `hash` on strings is process-salted
and implementation-defined; the store uses it only as an opaque source of
fresh id material, and no theorem below depends on its value, so an
arbitrary concrete function of the two inputs stands in for it. -/
def pyTupleHash (canonicalText now : String) : Nat :=
  canonicalText.length + 37 * now.length

/-- The fabricated id `f"task-..."` used when the payload supplies none. -/
def fabricatedId (canonicalText now : String) : String :=
  "task-" ++ toString (pyTupleHash canonicalText now)

/-- Embeds `LocalTaskStore._normalize_task_record`.  `rec = dict(task)`
followed by `setdefault` keeps a supplied field and computes the default
otherwise; the correlation, schedule and extraction fields are copied
through verbatim by plain assignment. -/
def normalizeTaskRecord (task : RawTask) (now : String) : Task :=
  { id := match task.id with
          | some v => v
          | none => fabricatedId (task.canonical_text.getD "") now
    title := match task.title with
             | some v => v
             | none => pyOrS task.canonical_text (pyOrS task.title "Untitled Task")
    status := match task.status with
              | some v => v
              | none => pyOrS task.status "todo"
    priority := match task.priority with
                | some v => v
                | none => pyOrS task.priority "medium"
    created_at := match task.created_at with
                  | some v => v
                  | none => pyOrS task.created_at now
    updated_at := match task.updated_at with
                  | some v => v
                  | none => now
    note_id := task.note_id
    user_id := task.user_id
    workspace_id := task.workspace_id
    due_date := task.due_date
    due_time := task.due_time
    completed_at := task.completed_at
    confidence := task.confidence
    source_text := task.source_text }

/-- Embeds the lookup in
`index_by_id = do-comprehension over enumerate(existing) keeping truthy ids`:
a Python dict comprehension keeps the LAST index written for a repeated
key and the guard skips records whose id is falsy (empty), so
`indexById rows tid` is `index_by_id.get(tid)`: the greatest index `i`
with `rows[i].id == tid` and a non-empty id. -/
def indexById : List Task → String → Option Nat
  | [], _ => none
  | t :: ts, tid =>
    match indexById ts tid with
    | some i => some (i + 1)
    | none => if t.id = tid ∧ t.id ≠ "" then some 0 else none

/-- One iteration of the upsert loop of `save_extracted_tasks`: normalize
the raw payload, stamp its `updated_at` with the batch timestamp, and
either replace in place (when the id is a key of the PRE-batch index
`index_by_id`, computed from `rows`, never from the accumulator) or
append. -/
def upsertStep (rows : List Task) (now : String) (existing : List Task)
    (raw : RawTask) : List Task :=
  let r := { normalizeTaskRecord raw now with updated_at := now }
  match indexById rows r.id with
  | some i => existing.set i r
  | none => existing ++ [r]

/-- Embeds `LocalTaskStore.save_extracted_tasks` (the upsert-batch
operation).  Returns the new collection and the written count.
`index_by_id` is computed once from the pre-batch collection and never
refreshed inside the loop: a record whose id is an existing key replaces
in place at that original position, and every other record is appended,
even when an earlier iteration of the same batch already appended a
record with the same id. -/
def saveExtractedTasks (rows : List Task) (tasks : List RawTask) (now : String) :
    List Task × Nat :=
  if tasks.isEmpty then (rows, 0)
  else (tasks.foldl (upsertStep rows now) rows, tasks.length)

/-- Embeds the Python loop pattern
`for i, t in enumerate(rows): if t.get("id") == task_id: ...` used by
the status-update, reschedule and soft-delete operations: the index and
value of the FIRST record whose id matches. -/
def findTask : List Task → String → Option (Nat × Task)
  | [], _ => none
  | t :: ts, tid =>
    if t.id = tid then some (0, t)
    else
      match findTask ts tid with
      | some (i, u) => some (i + 1, u)
      | none => none

/-- The store's error taxonomy: `ValueError` for an invalid status
(InvalidArgument) and `KeyError` for a missing task id (NotFound). -/
inductive StoreError where
  | invalidStatus (status : String)
  | notFound (taskId : String)
deriving DecidableEq, Repr

/-- The `allowed` set of `update_task_status`. -/
def allowedStatuses : List String := ["todo", "in_progress", "done", "archived"]

/-- Embeds `LocalTaskStore.update_task_status`: validates the status
against the allowed set before any lookup, then rewrites the first
record whose id matches, stamping `updated_at` and setting or clearing
`completed_at` according to whether the new status is `done`. -/
def updateTaskStatus (rows : List Task) (taskId status now : String) :
    Except StoreError (List Task × Task) :=
  if status ∈ allowedStatuses then
    match findTask rows taskId with
    | none => Except.error (StoreError.notFound taskId)
    | some (i, t) =>
      let t' := { t with
        status := status
        updated_at := now
        completed_at := if status = "done" then some now else none }
      Except.ok (rows.set i t', t')
  else
    Except.error (StoreError.invalidStatus status)

/-- Embeds `LocalTaskStore.reschedule_task`: overwrites `due_date` and
`due_time` on the first record whose id matches (due_time defaults to
`None` when the caller omits it) and stamps `updated_at`. -/
def rescheduleTask (rows : List Task) (taskId dueDate : String)
    (dueTime : Option String) (now : String) :
    Except StoreError (List Task × Task) :=
  match findTask rows taskId with
  | none => Except.error (StoreError.notFound taskId)
  | some (i, t) =>
    let t' := { t with due_date := some dueDate, due_time := dueTime, updated_at := now }
    Except.ok (rows.set i t', t')

/-- Embeds `LocalTaskStore.delete_task`.  Soft mode archives the first
record whose id matches; hard mode keeps exactly the records whose id
differs and reports NotFound when that removes nothing. -/
def deleteTask (rows : List Task) (taskId : String) (softDelete : Bool)
    (now : String) : Except StoreError (List Task) :=
  if softDelete then
    match findTask rows taskId with
    | none => Except.error (StoreError.notFound taskId)
    | some (i, t) =>
      Except.ok (rows.set i { t with status := "archived", updated_at := now })
  else
    let newRows := rows.filter (fun t => t.id != taskId)
    if newRows.length = rows.length then Except.error (StoreError.notFound taskId)
    else Except.ok newRows

/-- The record-selection test of `get_tasks_by_date_range`: `due_date`
truthy (Python `if not due` skips both `None` and the empty string),
lexicographically inside the inclusive range, optional equality filters
on workspace and user, and the include-done exclusion. -/
def dateRangeKeep (t : Task) (startDate endDate : String)
    (workspaceId userId : Option String) (includeDone : Bool) : Bool :=
  match t.due_date with
  | none => false
  | some due =>
    due != "" &&
    pyStrLe startDate due && pyStrLe due endDate &&
    (workspaceId.isNone || t.workspace_id == workspaceId) &&
    (userId.isNone || t.user_id == userId) &&
    (includeDone || t.status != "done")

/-- The sort key `(x.get("due_date") or "9999-12-31", x.get("due_time") or "23:59")`
shared by both query operations: falsy (missing or empty) components are
replaced by sentinel maxima so they order last. -/
def sortKey (t : Task) : String × String :=
  (pyOrS t.due_date "9999-12-31", pyOrS t.due_time "23:59")

/-- Python tuple comparison of the sort keys: lexicographic on the pair,
non-strict (the reflexive comparison a stable sort needs). -/
def keyLE (a b : Task) : Bool :=
  pyStrLt (sortKey a).1 (sortKey b).1 ||
  ((sortKey a).1 == (sortKey b).1 && pyStrLe (sortKey a).2 (sortKey b).2)

/-- The sorting pass shared by both queries.  Python's `list.sort` is a
stable sort by the key tuple; a stable sort with respect to a total
transitive comparison is unique, so the structurally-recursive stable
`List.insertionSort` is an exact model of it. -/
def sortTasks (l : List Task) : List Task :=
  l.insertionSort (fun a b => keyLE a b = true)

/-- Embeds `LocalTaskStore.get_tasks_by_date_range`: filter in collection
order, then the stable sort by the sentinel key. -/
def getTasksByDateRange (rows : List Task) (startDate endDate : String)
    (workspaceId userId : Option String) (includeDone : Bool) : List Task :=
  sortTasks (rows.filter
    (fun t => dateRangeKeep t startDate endDate workspaceId userId includeDone))

/-- Embeds `LocalTaskStore.get_tasks_by_note`: equality on `note_id`
(a record with a null note id never equals the string argument), the
optional workspace filter, and the same stable sort. -/
def getTasksByNote (rows : List Task) (noteId : String)
    (workspaceId : Option String) : List Task :=
  sortTasks (rows.filter
    (fun t => t.note_id == some noteId &&
      (workspaceId.isNone || t.workspace_id == workspaceId)))

/-- The record-selection predicate exactly as the spec's words state it
(for comparison with the code's `dateRangeKeep`): due_date non-null and
lexicographically within the inclusive range, the optional equality
filters, and the include-done exclusion.  It can differ from the code's
test only on a record whose due_date is the empty string, which the code
additionally treats as missing. -/
def dateRangeSpecKeep (t : Task) (startDate endDate : String)
    (workspaceId userId : Option String) (includeDone : Bool) : Bool :=
  match t.due_date with
  | none => false
  | some due =>
    pyStrLe startDate due && pyStrLe due endDate &&
    (workspaceId.isNone || t.workspace_id == workspaceId) &&
    (userId.isNone || t.user_id == userId) &&
    (includeDone || t.status != "done")

/-- The persisted collection after attempting `update_task_status`:
`_save` runs only on the success path, and the found-branch mutations are
followed immediately by `_save`, so a raised error leaves the file
exactly as loaded. -/
def updateTaskStatusStore (rows : List Task) (taskId status now : String) :
    List Task :=
  match updateTaskStatus rows taskId status now with
  | Except.ok (rows', _) => rows'
  | Except.error _ => rows

/-- The persisted collection after attempting `reschedule_task`. -/
def rescheduleTaskStore (rows : List Task) (taskId dueDate : String)
    (dueTime : Option String) (now : String) : List Task :=
  match rescheduleTask rows taskId dueDate dueTime now with
  | Except.ok (rows', _) => rows'
  | Except.error _ => rows

/-- The persisted collection after attempting `delete_task`. -/
def deleteTaskStore (rows : List Task) (taskId : String) (softDelete : Bool)
    (now : String) : List Task :=
  match deleteTask rows taskId softDelete now with
  | Except.ok rows' => rows'
  | Except.error _ => rows

/-- A concrete fully-populated record, the shape a fresh normalization of
an id-only payload produces; counterexamples and witnesses below derive
their inputs from it by record update. -/
def baseTask : Task :=
  { id := "t1"
    title := "Untitled Task"
    status := "todo"
    priority := "medium"
    created_at := "2024-01-01T00:00:00"
    updated_at := "2024-01-01T00:00:00"
    note_id := none
    user_id := none
    workspace_id := none
    due_date := none
    due_time := none
    completed_at := none
    confidence := none
    source_text := none }

/-- A concrete record correlated to a note, used by witnesses below. -/
def sampleNoteTask : Task := { baseTask with id := "x", note_id := some "n" }

/-- Two concrete records sharing one id (a duplicated-id store state). -/
def dupTaskA : Task := { baseTask with id := "d", title := "first" }

/-- Second record with the same id as `dupTaskA`. -/
def dupTaskB : Task := { baseTask with id := "d", title := "second" }

/-! ### Order properties of the Python string comparison -/

theorem listLtB_nil_right : ∀ l : List Char, listLtB l [] = false
  | [] => rfl
  | _ :: _ => rfl

theorem listLtB_iff_lex : ∀ a b : List Char,
    listLtB a b = true ↔ List.Lex (· < ·) a b := by
  intro a
  induction a with
  | nil =>
    intro b
    cases b with
    | nil => simp [listLtB]
    | cons y ys => exact iff_of_true rfl List.Lex.nil
  | cons x xs ih =>
    intro b
    cases b with
    | nil =>
      rw [listLtB_nil_right]
      exact iff_of_false (by simp) (List.Lex.not_nil_right _ _)
    | cons y ys =>
      rcases lt_trichotomy x y with hxy | hxy | hxy
      · rw [listLtB, if_pos hxy]
        exact iff_of_true rfl (List.Lex.rel hxy)
      · subst hxy
        rw [listLtB, if_neg (lt_irrefl x), if_neg (lt_irrefl x)]
        rw [ih ys]
        constructor
        · exact fun h => List.Lex.cons h
        · intro h
          cases h with
          | cons h' => exact h'
          | rel h' => exact absurd h' (lt_irrefl x)
      · rw [listLtB, if_neg (asymm hxy), if_pos hxy]
        apply iff_of_false (by simp)
        intro h
        cases h with
        | cons h' => exact absurd hxy (lt_irrefl _)
        | rel h' => exact absurd h' (asymm hxy)

theorem pyStrLt_irrefl (a : String) : pyStrLt a a = false := by
  rcases hb : listLtB a.data a.data with _ | _
  · rw [pyStrLt]; exact hb
  · have h := (listLtB_iff_lex a.data a.data).mp hb
    exact absurd h (asymm_of (List.Lex (· < ·)) h)

theorem pyStrLt_trans {a b c : String}
    (h1 : pyStrLt a b = true) (h2 : pyStrLt b c = true) : pyStrLt a c = true := by
  rw [pyStrLt, listLtB_iff_lex] at h1 h2 ⊢
  exact trans_of (List.Lex (· < ·)) h1 h2

theorem pyStrLt_asymm {a b : String} (h : pyStrLt a b = true) :
    pyStrLt b a = false := by
  rcases hb : pyStrLt b a with _ | _
  · rfl
  · rw [pyStrLt, listLtB_iff_lex] at h hb
    exact absurd h (asymm_of (List.Lex (· < ·)) hb)

theorem pyStrLt_connect {a b : String}
    (h1 : pyStrLt a b = false) (h2 : pyStrLt b a = false) : a = b := by
  have ht := (inferInstance : IsTrichotomous (List Char) (List.Lex (· < ·)))
  rcases ht.trichotomous a.data b.data with h | h | h
  · rw [← listLtB_iff_lex] at h
    rw [pyStrLt] at h1
    rw [h1] at h
    exact absurd h (by simp)
  · exact String.toList_inj.mp h
  · rw [← listLtB_iff_lex] at h
    rw [pyStrLt] at h2
    rw [h2] at h
    exact absurd h (by simp)

theorem keyLE_iff {a b : Task} :
    keyLE a b = true ↔
      pyStrLt (sortKey a).1 (sortKey b).1 = true ∨
        ((sortKey a).1 = (sortKey b).1 ∧
          (pyStrLt (sortKey a).2 (sortKey b).2 = true ∨
            (sortKey a).2 = (sortKey b).2)) := by
  simp [keyLE, pyStrLe, Bool.or_eq_true, Bool.and_eq_true, beq_iff_eq]

theorem keyLE_trans : ∀ a b c : Task,
    keyLE a b = true → keyLE b c = true → keyLE a c = true := by
  intro a b c h1 h2
  rw [keyLE_iff] at h1 h2 ⊢
  rcases h1 with h1 | ⟨hd1, ht1⟩
  · rcases h2 with h2 | ⟨hd2, _⟩
    · exact Or.inl (pyStrLt_trans h1 h2)
    · exact Or.inl (hd2 ▸ h1)
  · rcases h2 with h2 | ⟨hd2, ht2⟩
    · exact Or.inl (hd1 ▸ h2)
    · refine Or.inr ⟨hd1.trans hd2, ?_⟩
      rcases ht1 with ht1 | ht1
      · rcases ht2 with ht2 | ht2
        · exact Or.inl (pyStrLt_trans ht1 ht2)
        · exact Or.inl (ht2 ▸ ht1)
      · rcases ht2 with ht2 | ht2
        · exact Or.inl (ht1 ▸ ht2)
        · exact Or.inr (ht1.trans ht2)

theorem keyLE_total : ∀ a b : Task, keyLE a b = true ∨ keyLE b a = true := by
  intro a b
  rw [keyLE_iff, keyLE_iff]
  by_cases hd : pyStrLt (sortKey a).1 (sortKey b).1 = true
  · exact Or.inl (Or.inl hd)
  by_cases hd' : pyStrLt (sortKey b).1 (sortKey a).1 = true
  · exact Or.inr (Or.inl hd')
  have hdeq : (sortKey a).1 = (sortKey b).1 :=
    pyStrLt_connect (by simpa using hd) (by simpa using hd')
  by_cases ht : pyStrLt (sortKey a).2 (sortKey b).2 = true
  · exact Or.inl (Or.inr ⟨hdeq, Or.inl ht⟩)
  by_cases ht' : pyStrLt (sortKey b).2 (sortKey a).2 = true
  · exact Or.inr (Or.inr ⟨hdeq.symm, Or.inl ht'⟩)
  exact Or.inl (Or.inr ⟨hdeq,
    Or.inr (pyStrLt_connect (by simpa using ht) (by simpa using ht'))⟩)

instance : IsTrans Task (fun a b => keyLE a b = true) := ⟨keyLE_trans⟩

instance : IsTotal Task (fun a b => keyLE a b = true) := ⟨keyLE_total⟩

theorem sortTasks_perm (l : List Task) : (sortTasks l).Perm l :=
  List.perm_insertionSort _ l

theorem sortTasks_pairwise (l : List Task) :
    (sortTasks l).Pairwise (fun a b => keyLE a b = true) :=
  List.sorted_insertionSort _ l

/-! ### Properties of the record-lookup helpers -/

theorem findTask_eq_some : ∀ {rows : List Task} {tid : String} {i : Nat} {t : Task},
    findTask rows tid = some (i, t) → rows[i]? = some t ∧ t.id = tid := by
  intro rows
  induction rows with
  | nil => intro tid i t h; simp [findTask] at h
  | cons x xs ih =>
    intro tid i t h
    rw [findTask] at h
    by_cases hx : x.id = tid
    · rw [if_pos hx] at h
      simp only [Option.some.injEq, Prod.mk.injEq] at h
      obtain ⟨hi, hxt⟩ := h
      subst hxt
      cases hi
      simpa using hx
    · rw [if_neg hx] at h
      cases hfx : findTask xs tid with
      | none => rw [hfx] at h; exact absurd h (by simp)
      | some p =>
        obtain ⟨j, u⟩ := p
        rw [hfx] at h
        simp only [Option.some.injEq, Prod.mk.injEq] at h
        obtain ⟨hi, hu⟩ := h
        subst hu
        cases hi
        have hr := ih hfx
        exact ⟨by simpa using hr.1, hr.2⟩

theorem findTask_first : ∀ {rows : List Task} {tid : String} {i : Nat} {t : Task},
    findTask rows tid = some (i, t) →
    ∀ j, j < i → ∀ u, rows[j]? = some u → u.id ≠ tid := by
  intro rows
  induction rows with
  | nil => intro tid i t h; simp [findTask] at h
  | cons x xs ih =>
    intro tid i t h j hj u hu
    rw [findTask] at h
    by_cases hx : x.id = tid
    · rw [if_pos hx] at h
      simp only [Option.some.injEq, Prod.mk.injEq] at h
      omega
    · rw [if_neg hx] at h
      cases hfx : findTask xs tid with
      | none => rw [hfx] at h; exact absurd h (by simp)
      | some p =>
        obtain ⟨k, v⟩ := p
        rw [hfx] at h
        simp only [Option.some.injEq, Prod.mk.injEq] at h
        obtain ⟨hi, hv⟩ := h
        subst hv
        cases hi
        cases j with
        | zero =>
          simp only [List.getElem?_cons_zero, Option.some.injEq] at hu
          subst hu
          exact hx
        | succ j' =>
          exact ih hfx j' (by omega) u (by simpa using hu)

theorem findTask_eq_none : ∀ (rows : List Task) (tid : String),
    findTask rows tid = none ↔ ∀ t ∈ rows, t.id ≠ tid := by
  intro rows tid
  induction rows with
  | nil => simp [findTask]
  | cons x xs ih =>
    rw [findTask]
    by_cases hx : x.id = tid
    · rw [if_pos hx]
      exact iff_of_false (by simp)
        (fun hall => hall x (List.mem_cons_self x xs) hx)
    · rw [if_neg hx]
      cases hfx : findTask xs tid with
      | none =>
        apply iff_of_true rfl
        intro t htm
        rcases List.mem_cons.mp htm with rfl | htm'
        · exact hx
        · exact (ih.mp hfx) t htm'
      | some p =>
        obtain ⟨k, v⟩ := p
        apply iff_of_false (by simp)
        intro hall
        obtain ⟨hv, hvid⟩ := findTask_eq_some hfx
        exact hall v (List.mem_cons_of_mem x (List.getElem?_mem hv)) hvid

theorem indexById_eq_some : ∀ {rows : List Task} {tid : String} {i : Nat},
    indexById rows tid = some i →
    ∃ t, rows[i]? = some t ∧ t.id = tid ∧ t.id ≠ "" := by
  intro rows
  induction rows with
  | nil => intro tid i h; simp [indexById] at h
  | cons x xs ih =>
    intro tid i h
    rw [indexById] at h
    cases hfx : indexById xs tid with
    | some j =>
      rw [hfx] at h
      simp only [Option.some.injEq] at h
      cases h
      obtain ⟨t, ht, htid, hne⟩ := ih hfx
      exact ⟨t, by simpa using ht, htid, hne⟩
    | none =>
      rw [hfx] at h
      by_cases hx : x.id = tid ∧ x.id ≠ ""
      · rw [if_pos hx] at h
        simp only [Option.some.injEq] at h
        cases h
        exact ⟨x, by simp, hx.1, hx.2⟩
      · rw [if_neg hx] at h
        exact absurd h (by simp)

theorem indexById_eq_none : ∀ (rows : List Task) (tid : String),
    indexById rows tid = none ↔ ∀ t ∈ rows, ¬(t.id = tid ∧ t.id ≠ "") := by
  intro rows tid
  induction rows with
  | nil => simp [indexById]
  | cons x xs ih =>
    rw [indexById]
    cases hfx : indexById xs tid with
    | some j =>
      apply iff_of_false (by simp)
      intro hall
      obtain ⟨t, ht, htid, hne⟩ := indexById_eq_some hfx
      exact hall t (List.mem_cons_of_mem x (List.getElem?_mem ht)) ⟨htid, hne⟩
    | none =>
      by_cases hx : x.id = tid ∧ x.id ≠ ""
      · rw [if_pos hx]
        exact iff_of_false (by simp)
          (fun hall => hall x (List.mem_cons_self x xs) hx)
      · rw [if_neg hx]
        apply iff_of_true rfl
        intro t htm
        rcases List.mem_cons.mp htm with rfl | htm'
        · exact hx
        · exact (ih.mp hfx) t htm'

/-! ### Unfolding equations for the mutating operations -/

theorem upsertStep_eq (rows : List Task) (now : String) (existing : List Task)
    (raw : RawTask) :
    upsertStep rows now existing raw =
      (match indexById rows
          ({ normalizeTaskRecord raw now with updated_at := now } : Task).id with
       | some i =>
         existing.set i { normalizeTaskRecord raw now with updated_at := now }
       | none =>
         existing ++ [{ normalizeTaskRecord raw now with updated_at := now }]) :=
  rfl

theorem updateTaskStatus_eq (rows : List Task) (taskId status now : String) :
    updateTaskStatus rows taskId status now =
      (if status ∈ allowedStatuses then
        match findTask rows taskId with
        | none => Except.error (StoreError.notFound taskId)
        | some (i, t) =>
          Except.ok (rows.set i
            { t with
              status := status
              updated_at := now
              completed_at := if status = "done" then some now else none },
            { t with
              status := status
              updated_at := now
              completed_at := if status = "done" then some now else none })
      else Except.error (StoreError.invalidStatus status)) := rfl

theorem rescheduleTask_eq (rows : List Task) (taskId dueDate : String)
    (dueTime : Option String) (now : String) :
    rescheduleTask rows taskId dueDate dueTime now =
      (match findTask rows taskId with
      | none => Except.error (StoreError.notFound taskId)
      | some (i, t) =>
        Except.ok (rows.set i
          { t with
            due_date := some dueDate
            due_time := dueTime
            updated_at := now },
          { t with
            due_date := some dueDate
            due_time := dueTime
            updated_at := now })) := rfl

theorem deleteTask_soft_eq (rows : List Task) (taskId now : String) :
    deleteTask rows taskId true now =
      (match findTask rows taskId with
      | none => Except.error (StoreError.notFound taskId)
      | some (i, t) =>
        Except.ok (rows.set i { t with
          status := "archived"
          updated_at := now })) := rfl

theorem deleteTask_hard_eq (rows : List Task) (taskId now : String) :
    deleteTask rows taskId false now =
      (if (rows.filter (fun t => t.id != taskId)).length = rows.length
       then Except.error (StoreError.notFound taskId)
       else Except.ok (rows.filter (fun t => t.id != taskId))) := rfl

/-! ### Query results only contain stored records -/

theorem mem_of_mem_getTasksByDateRange {rows : List Task} {sd ed : String}
    {ws uid : Option String} {inc : Bool} {r : Task}
    (h : r ∈ getTasksByDateRange rows sd ed ws uid inc) : r ∈ rows := by
  rw [getTasksByDateRange] at h
  exact (List.mem_filter.mp ((sortTasks_perm _).mem_iff.mp h)).1

theorem mem_of_mem_getTasksByNote {rows : List Task} {nid : String}
    {ws : Option String} {r : Task}
    (h : r ∈ getTasksByNote rows nid ws) : r ∈ rows := by
  rw [getTasksByNote] at h
  exact (List.mem_filter.mp ((sortTasks_perm _).mem_iff.mp h)).1

/-! ### Claim C1: the completed_at/status invariant -/

/-- C1 is false as stated: a single upsert persists a record whose
completed_at is non-null while its status is `todo`, because
`_normalize_task_record` copies `completed_at` verbatim from the payload
and validates nothing against `status`. -/
theorem C1_counterexample :
    ∃ t ∈ (saveExtractedTasks []
      [{ id := some "a", completed_at := some "2024-01-01T08:00:00" }]
      "2024-01-02T00:00:00").1,
      t.status ≠ "done" ∧ t.completed_at ≠ none := by decide

/-- C1 amended: the invariant `completed_at non-null iff status = done`
is established by `update_task_status` on the record it rewrites and is
preserved store-wide by that call; the upsert and soft-delete paths do
not enforce it. -/
theorem C1_amended {rows : List Task} {taskId status now : String}
    {rows' : List Task} {t' : Task}
    (hok : updateTaskStatus rows taskId status now = Except.ok (rows', t'))
    (hinv : ∀ t ∈ rows, (t.completed_at ≠ none ↔ t.status = "done")) :
    (t'.completed_at ≠ none ↔ t'.status = "done") ∧
    ∀ t ∈ rows', (t.completed_at ≠ none ↔ t.status = "done") := by
  rw [updateTaskStatus] at hok
  by_cases hs : status ∈ allowedStatuses
  · rw [if_pos hs] at hok
    cases hft : findTask rows taskId with
    | none => rw [hft] at hok; exact absurd hok (by simp)
    | some p =>
      obtain ⟨i, t⟩ := p
      rw [hft] at hok
      simp only [Except.ok.injEq, Prod.mk.injEq] at hok
      obtain ⟨hrows, ht'⟩ := hok
      subst hrows
      subst ht'
      constructor
      · by_cases hd : status = "done" <;> simp [hd]
      · intro u hu
        rcases List.mem_or_eq_of_mem_set hu with hu' | rfl
        · exact hinv u hu'
        · by_cases hd : status = "done" <;> simp [hd]
  · rw [if_neg hs] at hok; exact absurd hok (by simp)

theorem C1_amended_witness :
    ((({ baseTask with
         id := "a"
         status := "done"
         updated_at := "T2"
         completed_at := some "T2" } : Task).completed_at ≠ none ↔
       ({ baseTask with
          id := "a"
          status := "done"
          updated_at := "T2"
          completed_at := some "T2" } : Task).status = "done") ∧
     ∀ t ∈ ([{ baseTask with
         id := "a"
         status := "done"
         updated_at := "T2"
         completed_at := some "T2" }] : List Task),
       (t.completed_at ≠ none ↔ t.status = "done")) :=
  @C1_amended [{ baseTask with id := "a" }] "a" "done" "T2"
    [{ baseTask with
       id := "a"
       status := "done"
       updated_at := "T2"
       completed_at := some "T2" }]
    { baseTask with
      id := "a"
      status := "done"
      updated_at := "T2"
      completed_at := some "T2" }
    (by rfl) (by decide)

/-! ### Claim C2: only the four enumerated statuses are persisted -/

/-- C2 is false as stated: the upsert path persists an arbitrary
caller-supplied status verbatim; only the explicit status-update
validates against the enumeration. -/
theorem C2_counterexample :
    ∃ t ∈ (saveExtractedTasks [] [{ id := some "a", status := some "bogus" }]
      "T").1,
      t.status ∉ allowedStatuses := by decide

/-- C2 amended: `update_task_status` only ever writes one of the four
enumerated statuses, so it preserves the all-statuses-valid property;
the upsert path does not validate the status it persists. -/
theorem C2_amended {rows : List Task} {taskId status now : String}
    {rows' : List Task} {t' : Task}
    (hok : updateTaskStatus rows taskId status now = Except.ok (rows', t'))
    (hall : ∀ t ∈ rows, t.status ∈ allowedStatuses) :
    t'.status ∈ allowedStatuses ∧ ∀ t ∈ rows', t.status ∈ allowedStatuses := by
  rw [updateTaskStatus] at hok
  by_cases hs : status ∈ allowedStatuses
  · rw [if_pos hs] at hok
    cases hft : findTask rows taskId with
    | none => rw [hft] at hok; exact absurd hok (by simp)
    | some p =>
      obtain ⟨i, t⟩ := p
      rw [hft] at hok
      simp only [Except.ok.injEq, Prod.mk.injEq] at hok
      obtain ⟨hrows, ht'⟩ := hok
      subst hrows
      subst ht'
      refine ⟨hs, ?_⟩
      intro u hu
      rcases List.mem_or_eq_of_mem_set hu with hu' | rfl
      · exact hall u hu'
      · exact hs
  · rw [if_neg hs] at hok; exact absurd hok (by simp)

theorem C2_amended_witness :
    (({ baseTask with
        id := "a"
        status := "archived"
        updated_at := "T3"
        completed_at := none } : Task).status ∈ allowedStatuses ∧
     ∀ t ∈ ([{ baseTask with
         id := "a"
         status := "archived"
         updated_at := "T3"
         completed_at := none }] : List Task),
       t.status ∈ allowedStatuses) :=
  @C2_amended [{ baseTask with id := "a" }] "a" "archived" "T3"
    [{ baseTask with
       id := "a"
       status := "archived"
       updated_at := "T3"
       completed_at := none }]
    { baseTask with
      id := "a"
      status := "archived"
      updated_at := "T3"
      completed_at := none }
    (by rfl) (by decide)

/-! ### Claim C4: immutability of created_at across upserts -/

/-- C4 is false as stated: the record created by the first upsert carries
the creation timestamp, and a later upsert of the same id without a
created_at in the payload resets the stored created_at to the later
upsert's timestamp. -/
theorem C4_counterexample :
    ((saveExtractedTasks [] [{ id := some "a" }] "T1").1.map
        (fun t => t.created_at) = ["T1"]) ∧
    ((saveExtractedTasks (saveExtractedTasks [] [{ id := some "a" }] "T1").1
        [{ id := some "a" }] "T2").1.map (fun t => t.created_at) = ["T2"]) := by
  decide

/-- C4 amended: a re-upsert of an existing id fully replaces the stored
record with the freshly normalized payload, whose created_at is the new
payload's value when supplied and the time of this upsert otherwise —
the previously stored created_at is never consulted. -/
theorem C4_amended (rows : List Task) (raw : RawTask) (now : String) (i : Nat)
    (hidx : indexById rows
      ({ normalizeTaskRecord raw now with updated_at := now }).id = some i) :
    (saveExtractedTasks rows [raw] now).1 =
      rows.set i { normalizeTaskRecord raw now with updated_at := now } ∧
    ({ normalizeTaskRecord raw now with updated_at := now }).created_at =
      raw.created_at.getD now := by
  constructor
  · rw [saveExtractedTasks]
    rw [if_neg (by simp)]
    simp only [List.foldl]
    rw [upsertStep_eq, hidx]
  · cases hc : raw.created_at <;> simp [normalizeTaskRecord, pyOrS, hc]

theorem C4_amended_witness :
    (saveExtractedTasks [{ baseTask with id := "b" }] [{ id := some "b" }]
        "T9").1 =
      [{ baseTask with id := "b" }].set 0
        { normalizeTaskRecord { id := some "b" } "T9" with updated_at := "T9" } ∧
    ({ normalizeTaskRecord { id := some "b" } "T9" with
        updated_at := "T9" }).created_at =
      ({ id := some "b" } : RawTask).created_at.getD "T9" :=
  C4_amended [{ baseTask with id := "b" }] { id := some "b" } "T9" 0 (by decide)

/-! ### Claim C3: id uniqueness under upsert -/

/-- C3 is false as stated: a batch that repeats an id NEW to the store
appends one record per occurrence, because `index_by_id` is computed
once, before the loop, and never refreshed — after this batch the id
`a` is stored twice. -/
theorem C3_counterexample :
    (((saveExtractedTasks [] [{ id := some "a" }, { id := some "a" }]
      "T").1.map (fun t => t.id)).count "a") = 2 := by decide

/-- Setting a position to the value it already holds is the identity. -/
theorem set_eq_of_getElem? {α : Type} {l : List α} {i : Nat} {v : α}
    (h : l[i]? = some v) : l.set i v = l := by
  induction l generalizing i with
  | nil => simp at h
  | cons x xs ih =>
    cases i with
    | zero =>
      simp only [List.getElem?_cons_zero, Option.some.injEq] at h
      subst h
      rfl
    | succ j =>
      simp only [List.getElem?_cons_succ] at h
      show x :: xs.set j v = x :: xs
      rw [ih h]

/-- A replacement iteration of the upsert loop never changes the list of
stored ids: the pre-batch index maps an id to a position that holds that
id, and the accumulator still holds the pre-batch ids at those
positions. -/
theorem upsertStep_ids_of_indexed {rows acc : List Task} {now : String}
    {raw : RawTask} {extra : List String} {i : Nat}
    (hacc : acc.map (fun t => t.id) = rows.map (fun t => t.id) ++ extra)
    (hidx : indexById rows
      ({ normalizeTaskRecord raw now with updated_at := now } : Task).id =
        some i) :
    (upsertStep rows now acc raw).map (fun t => t.id) =
      acc.map (fun t => t.id) := by
  obtain ⟨t, ht, htid, hne⟩ := indexById_eq_some hidx
  have hlen : i < rows.length := (List.getElem?_eq_some_iff.mp ht).1
  rw [upsertStep_eq, hidx]
  rw [List.map_set]
  apply set_eq_of_getElem?
  rw [hacc]
  rw [List.getElem?_append_left (by simpa using hlen)]
  rw [List.getElem?_map, ht]
  simp [htid]

/-- Ids after the upsert fold: the collection keeps the pre-batch ids in
place, and appends exactly those normalized batch ids that miss the
pre-batch index — a sublist of the batch's ids, in batch order. -/
theorem foldl_upsertStep_ids (rows : List Task) (now : String) :
    ∀ (batch : List RawTask) (acc : List Task) (extra : List String),
      acc.map (fun t => t.id) = rows.map (fun t => t.id) ++ extra →
      ∃ extra',
        (batch.foldl (upsertStep rows now) acc).map (fun t => t.id) =
          rows.map (fun t => t.id) ++ extra ++ extra' ∧
        extra'.Sublist (batch.map (fun raw =>
          ({ normalizeTaskRecord raw now with updated_at := now } : Task).id)) ∧
        ∀ x ∈ extra', indexById rows x = none := by
  intro batch
  induction batch with
  | nil =>
    intro acc extra hacc
    exact ⟨[], by simpa using hacc, List.nil_sublist _, by simp⟩
  | cons raw batch ih =>
    intro acc extra hacc
    rw [List.foldl_cons]
    cases hidx : indexById rows
        ({ normalizeTaskRecord raw now with updated_at := now } : Task).id with
    | some i =>
      have hstep := upsertStep_ids_of_indexed hacc hidx
      obtain ⟨extra', h1, h2, h3⟩ := ih (upsertStep rows now acc raw) extra
        (hstep.trans hacc)
      exact ⟨extra', h1, h2.cons _, h3⟩
    | none =>
      have hstep : upsertStep rows now acc raw =
          acc ++ [{ normalizeTaskRecord raw now with updated_at := now }] := by
        rw [upsertStep_eq, hidx]
      obtain ⟨extra', h1, h2, h3⟩ := ih (upsertStep rows now acc raw)
        (extra ++
          [({ normalizeTaskRecord raw now with updated_at := now } : Task).id])
        (by rw [hstep, List.map_append, hacc]; simp [List.append_assoc])
      refine ⟨({ normalizeTaskRecord raw now with updated_at := now } : Task).id
          :: extra', ?_, ?_, ?_⟩
      · rw [h1]
        simp [List.append_assoc]
      · exact List.cons_sublist_cons.mpr h2
      · intro x hx
        rcases List.mem_cons.mp hx with rfl | hx'
        · exact hidx
        · exact h3 x hx'

/-- C3 amended: after a batch upsert the stored ids are pairwise distinct
PROVIDED the previously stored ids were pairwise distinct and non-empty
and the batch's normalized ids are pairwise distinct; a batch repeating
an id new to the store violates uniqueness (see the counterexample),
because the id index is computed once per batch. -/
theorem C3_amended (rows : List Task) (batch : List RawTask) (now : String)
    (hrows : (rows.map (fun t => t.id)).Pairwise (· ≠ ·))
    (hne : ∀ t ∈ rows, t.id ≠ "")
    (hbatch : (batch.map (fun raw =>
      ({ normalizeTaskRecord raw now with updated_at := now } : Task).id)).Pairwise
      (· ≠ ·)) :
    ((saveExtractedTasks rows batch now).1.map (fun t => t.id)).Pairwise
      (· ≠ ·) := by
  rw [saveExtractedTasks]
  by_cases hempty : batch.isEmpty
  · rw [if_pos hempty]
    exact hrows
  · rw [if_neg hempty]
    obtain ⟨extra', h1, h2, h3⟩ :=
      foldl_upsertStep_ids rows now batch rows [] (by simp)
    show ((batch.foldl (upsertStep rows now) rows).map
      (fun t => t.id)).Pairwise (· ≠ ·)
    rw [h1, List.append_nil, List.pairwise_append]
    refine ⟨hrows, List.Pairwise.sublist h2 hbatch, ?_⟩
    intro a ha b hb
    obtain ⟨t, htm, rfl⟩ := List.mem_map.mp ha
    intro heq
    have hbn : indexById rows b = none := h3 b hb
    rw [← heq] at hbn
    exact ((indexById_eq_none rows t.id).mp hbn t htm) ⟨rfl, hne t htm⟩

theorem C3_amended_witness :
    (((saveExtractedTasks [{ baseTask with id := "p" }]
      [{ id := some "p" }, { id := some "q" }] "T7").1.map
        (fun t => t.id)).Pairwise (· ≠ ·)) :=
  C3_amended [{ baseTask with id := "p" }]
    [{ id := some "p" }, { id := some "q" }] "T7"
    (by decide) (by decide) (by decide)

/-! ### Claim C5: the date-range query -/

/-- On a non-empty start date the code's selection test agrees with the
spec's words: the only divergence candidate is a record whose due_date
is the empty string, which the code's truthiness test rejects and which
then also fails `startDate ≤ due`. -/
theorem dateRangeKeep_eq_spec {startDate : String} (hsd : startDate ≠ "")
    (t : Task) (endDate : String) (ws uid : Option String) (inc : Bool) :
    dateRangeKeep t startDate endDate ws uid inc =
      dateRangeSpecKeep t startDate endDate ws uid inc := by
  rw [dateRangeKeep, dateRangeSpecKeep]
  cases hd : t.due_date with
  | none => rfl
  | some due =>
    by_cases hdue : due = ""
    · subst hdue
      have h2 : pyStrLt startDate "" = false :=
        listLtB_nil_right startDate.data
      have h1 : pyStrLe startDate "" = false := by
        rw [pyStrLe, h2]
        simp [hsd]
      simp [h1]
    · have hb : (due != "") = true := bne_iff_ne.mpr hdue
      simp [hb]

/-- C5: the date-range query returns exactly (up to the sort) the stored
records satisfying the spec's selection predicate, and its result is
sorted ascending by the `(due_date, due_time)` key in which a null (or
empty) due_time is replaced by the sentinel maximum time `23:59`, so it
orders last within its date. -/
theorem C5_date_range_query (rows : List Task) (startDate endDate : String)
    (workspaceId userId : Option String) (includeDone : Bool)
    (hsd : startDate ≠ "") :
    (getTasksByDateRange rows startDate endDate workspaceId userId
        includeDone).Perm
      (rows.filter (fun t =>
        dateRangeSpecKeep t startDate endDate workspaceId userId includeDone)) ∧
    (getTasksByDateRange rows startDate endDate workspaceId userId
        includeDone).Pairwise (fun a b => keyLE a b = true) := by
  constructor
  · rw [getTasksByDateRange]
    have hfeq :
        rows.filter (fun t =>
          dateRangeKeep t startDate endDate workspaceId userId includeDone) =
        rows.filter (fun t =>
          dateRangeSpecKeep t startDate endDate workspaceId userId
            includeDone) :=
      List.filter_congr (fun t _ =>
        dateRangeKeep_eq_spec hsd t endDate workspaceId userId includeDone)
    rw [hfeq]
    exact sortTasks_perm _
  · rw [getTasksByDateRange]
    exact sortTasks_pairwise _

theorem C5_date_range_query_witness :
    (getTasksByDateRange
      [{ baseTask with id := "a", due_date := some "2024-01-01" },
       { baseTask with id := "b", due_date := some "2024-01-15" },
       { baseTask with id := "c", due_date := some "2024-02-01" },
       { baseTask with id := "d" }]
      "2024-01-01" "2024-01-31" none none true).Perm
      ([{ baseTask with id := "a", due_date := some "2024-01-01" },
        { baseTask with id := "b", due_date := some "2024-01-15" },
        { baseTask with id := "c", due_date := some "2024-02-01" },
        { baseTask with id := "d" }].filter (fun t =>
          dateRangeSpecKeep t "2024-01-01" "2024-01-31" none none true)) ∧
    (getTasksByDateRange
      [{ baseTask with id := "a", due_date := some "2024-01-01" },
       { baseTask with id := "b", due_date := some "2024-01-15" },
       { baseTask with id := "c", due_date := some "2024-02-01" },
       { baseTask with id := "d" }]
      "2024-01-01" "2024-01-31" none none true).Pairwise
      (fun a b => keyLE a b = true) :=
  C5_date_range_query
    [{ baseTask with id := "a", due_date := some "2024-01-01" },
     { baseTask with id := "b", due_date := some "2024-01-15" },
     { baseTask with id := "c", due_date := some "2024-02-01" },
     { baseTask with id := "d" }]
    "2024-01-01" "2024-01-31" none none true (by decide)

/-- The spec's range-query example, evaluated: the January tasks are
returned in date order; the February task and the null-due-date task are
excluded. -/
theorem dateRangeQuery_spec_example :
    getTasksByDateRange
      [{ baseTask with id := "c", due_date := some "2024-02-01" },
       { baseTask with id := "b", due_date := some "2024-01-15" },
       { baseTask with id := "a", due_date := some "2024-01-01" },
       { baseTask with id := "d" }]
      "2024-01-01" "2024-01-31" none none true =
    [{ baseTask with id := "a", due_date := some "2024-01-01" },
     { baseTask with id := "b", due_date := some "2024-01-15" }] := by decide

/-! ### Claim C6: the error taxonomy -/

/-- C6 is false as stated: when the requested status is invalid AND no
record matches the id, set_status raises InvalidArgument (the status
check runs before any lookup), so NotFound is not raised although no
record matches the given id. -/
theorem C6_counterexample :
    updateTaskStatus [] "missing" "bogus" "T" =
      Except.error (StoreError.invalidStatus "bogus") ∧
    (∀ t ∈ ([] : List Task), t.id ≠ "missing") := by
  exact ⟨rfl, by simp⟩

/-- C6 amended: set_status raises InvalidArgument exactly when the status
is outside the four enumerated values (regardless of whether the id
exists); set_status raises NotFound exactly when the status is valid and
no record matches; reschedule and delete (both modes) raise NotFound
exactly when no record matches; and every error leaves the persisted
collection unchanged. -/
theorem C6_amended (rows : List Task) (taskId status dueDate now : String)
    (dueTime : Option String) (softDelete : Bool) :
    (updateTaskStatus rows taskId status now =
        Except.error (StoreError.invalidStatus status) ↔
      status ∉ allowedStatuses) ∧
    (updateTaskStatus rows taskId status now =
        Except.error (StoreError.notFound taskId) ↔
      status ∈ allowedStatuses ∧ ∀ t ∈ rows, t.id ≠ taskId) ∧
    (rescheduleTask rows taskId dueDate dueTime now =
        Except.error (StoreError.notFound taskId) ↔
      ∀ t ∈ rows, t.id ≠ taskId) ∧
    (deleteTask rows taskId softDelete now =
        Except.error (StoreError.notFound taskId) ↔
      ∀ t ∈ rows, t.id ≠ taskId) ∧
    ((∃ e, updateTaskStatus rows taskId status now = Except.error e) →
      updateTaskStatusStore rows taskId status now = rows) ∧
    ((∃ e, rescheduleTask rows taskId dueDate dueTime now = Except.error e) →
      rescheduleTaskStore rows taskId dueDate dueTime now = rows) ∧
    ((∃ e, deleteTask rows taskId softDelete now = Except.error e) →
      deleteTaskStore rows taskId softDelete now = rows) := by
  refine ⟨?_, ?_, ?_, ?_, ?_, ?_, ?_⟩
  · by_cases hs : status ∈ allowedStatuses
    · refine iff_of_false ?_ (by simpa using hs)
      rw [updateTaskStatus_eq, if_pos hs]
      cases hft : findTask rows taskId with
      | none => simp
      | some p => obtain ⟨i, t⟩ := p; simp
    · refine iff_of_true ?_ hs
      rw [updateTaskStatus_eq, if_neg hs]
  · by_cases hs : status ∈ allowedStatuses
    · rw [updateTaskStatus_eq, if_pos hs]
      cases hft : findTask rows taskId with
      | none =>
        exact iff_of_true rfl ⟨hs, (findTask_eq_none rows taskId).mp hft⟩
      | some p =>
        obtain ⟨i, t⟩ := p
        refine iff_of_false (by simp) ?_
        intro hcon
        obtain ⟨ht, htid⟩ := findTask_eq_some hft
        exact hcon.2 t (List.getElem?_mem ht) htid
    · rw [updateTaskStatus_eq, if_neg hs]
      refine iff_of_false (by simp) ?_
      intro hcon
      exact hs hcon.1
  · rw [rescheduleTask_eq]
    cases hft : findTask rows taskId with
    | none => exact iff_of_true rfl ((findTask_eq_none rows taskId).mp hft)
    | some p =>
      obtain ⟨i, t⟩ := p
      refine iff_of_false (by simp) ?_
      intro hcon
      obtain ⟨ht, htid⟩ := findTask_eq_some hft
      exact hcon t (List.getElem?_mem ht) htid
  · cases softDelete with
    | true =>
      rw [deleteTask_soft_eq]
      cases hft : findTask rows taskId with
      | none => exact iff_of_true rfl ((findTask_eq_none rows taskId).mp hft)
      | some p =>
        obtain ⟨i, t⟩ := p
        refine iff_of_false (by simp) ?_
        intro hcon
        obtain ⟨ht, htid⟩ := findTask_eq_some hft
        exact hcon t (List.getElem?_mem ht) htid
    | false =>
      rw [deleteTask_hard_eq]
      by_cases hlen :
          (rows.filter (fun t => t.id != taskId)).length = rows.length
      · rw [if_pos hlen]
        refine iff_of_true rfl ?_
        intro t htm
        have := List.filter_length_eq_length.mp hlen t htm
        simpa using this
      · rw [if_neg hlen]
        refine iff_of_false (by simp) ?_
        intro hall
        refine hlen ?_
        apply List.filter_length_eq_length.mpr
        intro t htm
        simpa using hall t htm
  · rintro ⟨e, he⟩
    rw [updateTaskStatusStore, he]
  · rintro ⟨e, he⟩
    rw [rescheduleTaskStore, he]
  · rintro ⟨e, he⟩
    rw [deleteTaskStore, he]

/-! ### Claim C7: soft delete versus hard delete -/

/-- C7: soft delete archives the matched record in place (stamping
updated_at, leaving completed_at and all other fields untouched) and the
record is still returned by a note query; hard delete removes every
record with the id, so no subsequent query returns one. -/
theorem C7_delete_modes (rows : List Task) (taskId now n : String)
    (i : Nat) (t : Task)
    (hft : findTask rows taskId = some (i, t))
    (hnote : t.note_id = some n) :
    deleteTask rows taskId true now =
      Except.ok (rows.set i { t with status := "archived", updated_at := now }) ∧
    ({ t with status := "archived", updated_at := now }).completed_at =
      t.completed_at ∧
    { t with status := "archived", updated_at := now } ∈
      getTasksByNote
        (rows.set i { t with status := "archived", updated_at := now }) n none ∧
    ∃ rows', deleteTask rows taskId false now = Except.ok rows' ∧
      (∀ r ∈ rows', r.id ≠ taskId) ∧
      (∀ sd ed ws uid inc,
        ∀ r ∈ getTasksByDateRange rows' sd ed ws uid inc, r.id ≠ taskId) ∧
      (∀ nid ws, ∀ r ∈ getTasksByNote rows' nid ws, r.id ≠ taskId) := by
  obtain ⟨ht, htid⟩ := findTask_eq_some hft
  have hbound : i < rows.length := (List.getElem?_eq_some_iff.mp ht).1
  refine ⟨?_, rfl, ?_, ?_⟩
  · rw [deleteTask_soft_eq, hft]
  · have hmem : { t with status := "archived", updated_at := now } ∈
        rows.set i { t with status := "archived", updated_at := now } := by
      apply List.getElem?_mem
      exact List.getElem?_set_self hbound
    rw [getTasksByNote]
    apply (sortTasks_perm _).mem_iff.mpr
    apply List.mem_filter.mpr
    exact ⟨hmem, by simp [hnote]⟩
  · have htm : t ∈ rows := List.getElem?_mem ht
    have hlt : (rows.filter (fun r => r.id != taskId)).length < rows.length := by
      apply List.length_filter_lt_length_iff_exists.mpr
      exact ⟨t, htm, by simp [htid]⟩
    refine ⟨rows.filter (fun r => r.id != taskId), ?_, ?_, ?_, ?_⟩
    · rw [deleteTask_hard_eq, if_neg (by omega)]
    · intro r hr
      simpa using (List.mem_filter.mp hr).2
    · intro sd ed ws uid inc r hr
      simpa using (List.mem_filter.mp (mem_of_mem_getTasksByDateRange hr)).2
    · intro nid ws r hr
      simpa using (List.mem_filter.mp (mem_of_mem_getTasksByNote hr)).2

theorem C7_delete_modes_witness :
    deleteTask [sampleNoteTask] "x" true "T4" =
      Except.ok [{ sampleNoteTask with status := "archived", updated_at := "T4" }] ∧
    ({ sampleNoteTask with status := "archived", updated_at := "T4" }).completed_at =
      sampleNoteTask.completed_at ∧
    { sampleNoteTask with status := "archived", updated_at := "T4" } ∈
      getTasksByNote
        [{ sampleNoteTask with status := "archived", updated_at := "T4" }] "n" none ∧
    ∃ rows', deleteTask [sampleNoteTask] "x" false "T4" = Except.ok rows' ∧
      (∀ r ∈ rows', r.id ≠ "x") ∧
      (∀ sd ed ws uid inc,
        ∀ r ∈ getTasksByDateRange rows' sd ed ws uid inc, r.id ≠ "x") ∧
      (∀ nid ws, ∀ r ∈ getTasksByNote rows' nid ws, r.id ≠ "x") :=
  C7_delete_modes [sampleNoteTask] "x" "T4" "n" 0 sampleNoteTask
    (by decide) (by decide)

/-! ### Claim C8: reschedule's footprint -/

/-- C8: reschedule overwrites exactly due_date and due_time (due_time
becoming null when omitted is the `dueTime = none` instance), stamps
updated_at, leaves status, completed_at and every other field of the
record intact, and leaves every other position of the collection
unchanged. -/
theorem C8_reschedule (rows : List Task) (taskId dueDate now : String)
    (dueTime : Option String) (i : Nat) (t : Task)
    (hft : findTask rows taskId = some (i, t)) :
    rescheduleTask rows taskId dueDate dueTime now =
      Except.ok (rows.set i
        { t with due_date := some dueDate, due_time := dueTime, updated_at := now },
        { t with due_date := some dueDate, due_time := dueTime, updated_at := now }) ∧
    ({ t with
        due_date := some dueDate
        due_time := dueTime
        updated_at := now }).status = t.status ∧
    ({ t with
        due_date := some dueDate
        due_time := dueTime
        updated_at := now }).completed_at = t.completed_at ∧
    ∀ j, j ≠ i →
      (rows.set i { t with
        due_date := some dueDate
        due_time := dueTime
        updated_at := now })[j]? = rows[j]? := by
  refine ⟨?_, rfl, rfl, ?_⟩
  · rw [rescheduleTask_eq, hft]
  · intro j hj
    exact List.getElem?_set_ne (Ne.symm hj)

theorem C8_reschedule_witness :
    rescheduleTask [sampleNoteTask] "x" "2024-03-01" (some "10:00") "T5" =
      Except.ok ([{ sampleNoteTask with
          due_date := some "2024-03-01"
          due_time := some "10:00"
          updated_at := "T5" }],
        { sampleNoteTask with
          due_date := some "2024-03-01"
          due_time := some "10:00"
          updated_at := "T5" }) ∧
    ({ sampleNoteTask with
        due_date := some "2024-03-01"
        due_time := some "10:00"
        updated_at := "T5" }).status = sampleNoteTask.status ∧
    ({ sampleNoteTask with
        due_date := some "2024-03-01"
        due_time := some "10:00"
        updated_at := "T5" }).completed_at = sampleNoteTask.completed_at ∧
    ∀ j, j ≠ 0 →
      ([sampleNoteTask].set 0 { sampleNoteTask with
        due_date := some "2024-03-01"
        due_time := some "10:00"
        updated_at := "T5" })[j]? = [sampleNoteTask][j]? :=
  C8_reschedule [sampleNoteTask] "x" "2024-03-01" "T5" (some "10:00") 0
    sampleNoteTask (by decide)

/-! ### Claim C10: behaviour on duplicated ids -/

/-- C10: with duplicated ids in the store, hard delete removes every
record whose id matches (the result is exactly the filter keeping the
others, in order), while set_status, reschedule and soft delete rewrite
only the first matching position — the index found is the first match,
and every other position, in particular the later duplicates, is
unchanged. -/
theorem C10_duplicate_ids (rows : List Task)
    (taskId status dueDate now : String) (dueTime : Option String)
    (i : Nat) (t : Task)
    (hft : findTask rows taskId = some (i, t))
    (hs : status ∈ allowedStatuses) :
    deleteTask rows taskId false now =
      Except.ok (rows.filter (fun r => r.id != taskId)) ∧
    updateTaskStatus rows taskId status now =
      Except.ok (rows.set i
        { t with
          status := status
          updated_at := now
          completed_at := if status = "done" then some now else none },
        { t with
          status := status
          updated_at := now
          completed_at := if status = "done" then some now else none }) ∧
    rescheduleTask rows taskId dueDate dueTime now =
      Except.ok (rows.set i
        { t with
          due_date := some dueDate
          due_time := dueTime
          updated_at := now },
        { t with
          due_date := some dueDate
          due_time := dueTime
          updated_at := now }) ∧
    deleteTask rows taskId true now =
      Except.ok (rows.set i { t with status := "archived", updated_at := now }) ∧
    (∀ j, j < i → ∀ u, rows[j]? = some u → u.id ≠ taskId) ∧
    (∀ (x : Task) (j : Nat), j ≠ i → (rows.set i x)[j]? = rows[j]?) := by
  obtain ⟨ht, htid⟩ := findTask_eq_some hft
  have htm : t ∈ rows := List.getElem?_mem ht
  refine ⟨?_, ?_, ?_, ?_, ?_, ?_⟩
  · have hlt : (rows.filter (fun r => r.id != taskId)).length < rows.length := by
      apply List.length_filter_lt_length_iff_exists.mpr
      exact ⟨t, htm, by simp [htid]⟩
    rw [deleteTask_hard_eq, if_neg (by omega)]
  · rw [updateTaskStatus_eq, if_pos hs, hft]
  · rw [rescheduleTask_eq, hft]
  · rw [deleteTask_soft_eq, hft]
  · exact findTask_first hft
  · intro x j hj
    exact List.getElem?_set_ne (Ne.symm hj)

theorem C10_duplicate_ids_witness :
    deleteTask [dupTaskA, dupTaskB] "d" false "T6" =
      Except.ok ([dupTaskA, dupTaskB].filter (fun r => r.id != "d")) ∧
    updateTaskStatus [dupTaskA, dupTaskB] "d" "in_progress" "T6" =
      Except.ok ([dupTaskA, dupTaskB].set 0
        { dupTaskA with
          status := "in_progress"
          updated_at := "T6"
          completed_at := if "in_progress" = "done" then some "T6" else none },
        { dupTaskA with
          status := "in_progress"
          updated_at := "T6"
          completed_at := if "in_progress" = "done" then some "T6" else none }) ∧
    rescheduleTask [dupTaskA, dupTaskB] "d" "2024-04-01" none "T6" =
      Except.ok ([dupTaskA, dupTaskB].set 0
        { dupTaskA with
          due_date := some "2024-04-01"
          due_time := none
          updated_at := "T6" },
        { dupTaskA with
          due_date := some "2024-04-01"
          due_time := none
          updated_at := "T6" }) ∧
    deleteTask [dupTaskA, dupTaskB] "d" true "T6" =
      Except.ok ([dupTaskA, dupTaskB].set 0
        { dupTaskA with status := "archived", updated_at := "T6" }) ∧
    (∀ j, j < 0 → ∀ u, [dupTaskA, dupTaskB][j]? = some u → u.id ≠ "d") ∧
    (∀ (x : Task) (j : Nat), j ≠ 0 →
      ([dupTaskA, dupTaskB].set 0 x)[j]? = [dupTaskA, dupTaskB][j]?) :=
  C10_duplicate_ids [dupTaskA, dupTaskB] "d" "in_progress" "2024-04-01" "T6"
    none 0 dupTaskA (by decide) (by decide)

end NoteAgent
